import Mathlib

/-!
# Verification of the privy-service secure key-export pipeline

Shallow embedding of the repository's authorized secure-export and
hybrid-decryption pipeline (`src/create_credentials_with_clob_client.ts`,
second document: `decryptHPKEMessage`, `exportWalletPrivateKey`, `main`;
`decodePrivateKey` from the first document; and
`decodeDoubleHexPrivateKey` from `src/unnamed/part_000`).

Strings from the source are modelled as `List Char` (JS strings are
sequences of code units; all data handled here is ASCII), and byte
buffers as `List Nat` with every entry `< 256`.

The external cryptographic primitives (`@hpke/core`,
`@hpke/chacha20poly1305`, WebCrypto `importKey` / `generateKey` /
`exportKey`, and `generateAuthorizationSignature` from the Privy SDK)
are not part of the repository; they are modelled symbolically from the
spec's description of their semantics (spec §4.1–§4.4), with the
repository's own glue code — base64 decoding, suite instantiation,
error propagation, hex formatting — translated concretely from the
source.
-/

namespace PrivyService

/-! ## Byte-level encodings (little-endian base-256) -/

/-- Little-endian base-256 digits of `v`, padded/truncated to width `w`. -/
def natToLEBytes : Nat → Nat → List Nat
  | 0, _ => []
  | w + 1, v => v % 256 :: natToLEBytes w (v / 256)

/-- Value of a little-endian base-256 digit list. -/
def leBytesToNat : List Nat → Nat
  | [] => 0
  | b :: bs => b + 256 * leBytesToNat bs

theorem length_natToLEBytes (w v : Nat) : (natToLEBytes w v).length = w := by
  induction w generalizing v with
  | zero => rfl
  | succ w ih => simp [natToLEBytes, ih]

theorem mem_natToLEBytes_lt (w v : Nat) : ∀ b ∈ natToLEBytes w v, b < 256 := by
  induction w generalizing v with
  | zero => intro b hb; simp [natToLEBytes] at hb
  | succ w ih =>
    intro b hb
    simp only [natToLEBytes, List.mem_cons] at hb
    rcases hb with h | h
    · omega
    · exact ih _ b h

theorem leBytesToNat_natToLEBytes (w v : Nat) :
    leBytesToNat (natToLEBytes w v) = v % 256 ^ w := by
  induction w generalizing v with
  | zero => simp [natToLEBytes, leBytesToNat, Nat.mod_one]
  | succ w ih =>
    simp only [natToLEBytes, leBytesToNat, ih]
    rw [pow_succ, mul_comm (256 ^ w) 256, Nat.mod_mul]

theorem natToLEBytes_inj {w v v' : Nat} (hv : v < 256 ^ w) (hv' : v' < 256 ^ w)
    (h : natToLEBytes w v = natToLEBytes w v') : v = v' := by
  have h1 := leBytesToNat_natToLEBytes w v
  have h2 := leBytesToNat_natToLEBytes w v'
  rw [h, h2] at h1
  rw [Nat.mod_eq_of_lt hv, Nat.mod_eq_of_lt hv'] at h1
  exact h1.symm

/-- Evaluation is injective on equal-length digit lists with all digits < 256. -/
theorem leBytesToNat_inj : ∀ (l₁ l₂ : List Nat), l₁.length = l₂.length →
    (∀ b ∈ l₁, b < 256) → (∀ b ∈ l₂, b < 256) →
    leBytesToNat l₁ = leBytesToNat l₂ → l₁ = l₂ := by
  intro l₁
  induction l₁ with
  | nil => intro l₂ hlen _ _ _; cases l₂ <;> simp_all
  | cons a as ih =>
    intro l₂ hlen h1 h2 hval
    cases l₂ with
    | nil => simp at hlen
    | cons b bs =>
      simp only [leBytesToNat] at hval
      have ha : a < 256 := h1 a (by simp)
      have hb : b < 256 := h2 b (by simp)
      have hab : a = b := by omega
      subst hab
      have : leBytesToNat as = leBytesToNat bs := by omega
      have := ih bs (by simpa using hlen)
        (fun x hx => h1 x (by simp [hx])) (fun x hx => h2 x (by simp [hx])) this
      rw [this]

/-! ## Base64 (the source's `base64ToBuffer` / `Buffer.toString('base64')`) -/

/-- The standard base64 alphabet. -/
def b64Alphabet : List Char :=
  "ABCDEFGHIJKLMNOPQRSTUVWXYZabcdefghijklmnopqrstuvwxyz0123456789+/".toList

/-- Character for a six-bit group. -/
def sextetChar (n : Nat) : Char := b64Alphabet.getD n 'A'

/-- Index of a character in the base64 alphabet (`none` for non-alphabet
characters, as `atob` throws on them). -/
def b64CharIndex (c : Char) : Option Nat :=
  match b64Alphabet.indexOf? c with
  | some i => some i
  | none => none

/-- `Buffer.from(bytes).toString('base64')`: standard base64 with padding,
three input bytes per four output characters. -/
def b64EncodeBytes : List Nat → List Char
  | [] => []
  | [a] => [sextetChar (a / 4), sextetChar (a % 4 * 16), '=', '=']
  | [a, b] => [sextetChar (a / 4), sextetChar (a % 4 * 16 + b / 16),
      sextetChar (b % 16 * 4), '=']
  | a :: b :: c :: rest =>
      sextetChar (a / 4) :: sextetChar (a % 4 * 16 + b / 16) ::
      sextetChar (b % 16 * 4 + c / 64) :: sextetChar (c % 64) ::
      b64EncodeBytes rest

/-- `Uint8Array.from(atob(s), c => c.charCodeAt(0))`: base64 decoding;
`none` models `atob` throwing on malformed input. -/
def b64DecodeChars : List Char → Option (List Nat)
  | [] => some []
  | c1 :: c2 :: c3 :: c4 :: rest =>
    match b64CharIndex c1, b64CharIndex c2 with
    | some s1, some s2 =>
      if c3 = '=' then
        if c4 = '=' ∧ rest = [] then some [s1 * 4 + s2 / 16] else none
      else
        match b64CharIndex c3 with
        | some s3 =>
          if c4 = '=' then
            if rest = [] then some [s1 * 4 + s2 / 16, s2 % 16 * 16 + s3 / 4]
            else none
          else
            match b64CharIndex c4 with
            | some s4 =>
              (b64DecodeChars rest).map
                (fun bs => (s1 * 4 + s2 / 16) :: (s2 % 16 * 16 + s3 / 4) ::
                  (s3 % 4 * 64 + s4) :: bs)
            | none => none
        | none => none
    | _, _ => none
  | _ => none

theorem b64CharIndex_sextetChar {s : Nat} (h : s < 64) :
    b64CharIndex (sextetChar s) = some s := by
  interval_cases s <;> rfl

theorem sextetChar_ne_eq {s : Nat} (h : s < 64) : sextetChar s ≠ '=' := by
  interval_cases s <;> decide

/-- Base64 round-trip: decoding an encoding recovers the bytes. -/
theorem b64_roundtrip : ∀ (bs : List Nat), (∀ b ∈ bs, b < 256) →
    b64DecodeChars (b64EncodeBytes bs) = some bs := by
  intro bs
  induction bs using b64EncodeBytes.induct with
  | case1 => intro _; rfl
  | case2 a =>
    intro hlt
    have ha : a < 256 := hlt a (by simp)
    have h1 : a / 4 < 64 := by omega
    have h2 : a % 4 * 16 < 64 := by omega
    simp only [b64EncodeBytes, b64DecodeChars,
      b64CharIndex_sextetChar h1, b64CharIndex_sextetChar h2,
      if_true, and_self, if_pos trivial]
    simp only [Option.some.injEq, List.cons.injEq, and_true]
    omega
  | case3 a b =>
    intro hlt
    have ha : a < 256 := hlt a (by simp)
    have hb : b < 256 := hlt b (by simp)
    have h1 : a / 4 < 64 := by omega
    have h2 : a % 4 * 16 + b / 16 < 64 := by omega
    have h3 : b % 16 * 4 < 64 := by omega
    simp only [b64EncodeBytes, b64DecodeChars,
      b64CharIndex_sextetChar h1, b64CharIndex_sextetChar h2,
      b64CharIndex_sextetChar h3, if_true, if_pos trivial]
    rw [if_neg (sextetChar_ne_eq h3)]
    simp only [Option.some.injEq, List.cons.injEq, and_true]
    omega
  | case4 a b c rest ih =>
    intro hlt
    have ha : a < 256 := hlt a (by simp)
    have hb : b < 256 := hlt b (by simp)
    have hc : c < 256 := hlt c (by simp)
    have h1 : a / 4 < 64 := by omega
    have h2 : a % 4 * 16 + b / 16 < 64 := by omega
    have h3 : b % 16 * 4 + c / 64 < 64 := by omega
    have h4 : c % 64 < 64 := by omega
    have ihr : b64DecodeChars (b64EncodeBytes rest) = some rest :=
      ih (fun x hx => hlt x (by simp [hx]))
    simp only [b64EncodeBytes, b64DecodeChars,
      b64CharIndex_sextetChar h1, b64CharIndex_sextetChar h2,
      b64CharIndex_sextetChar h3, b64CharIndex_sextetChar h4]
    rw [if_neg (sextetChar_ne_eq h3), if_neg (sextetChar_ne_eq h4)]
    rw [ihr]
    simp only [Option.map_some', Option.some.injEq, List.cons.injEq, and_true]
    omega

/-- Base64 encoding is injective on byte lists. -/
theorem b64EncodeBytes_inj {l₁ l₂ : List Nat} (h1 : ∀ b ∈ l₁, b < 256)
    (h2 : ∀ b ∈ l₂, b < 256) (h : b64EncodeBytes l₁ = b64EncodeBytes l₂) :
    l₁ = l₂ := by
  have e1 := b64_roundtrip l₁ h1
  have e2 := b64_roundtrip l₂ h2
  rw [h, e2] at e1
  exact Option.some_injective _ e1.symm

/-! ## Hex rendering (`Buffer.from(buf).toString('hex')`) -/

/-- The lowercase hex alphabet used by `Buffer.toString('hex')`. -/
def hexAlphabet : List Char := "0123456789abcdef".toList

/-- Lowercase hex digit for a nibble. -/
def hexDigitChar (n : Nat) : Char := hexAlphabet.getD n '0'

/-- `Buffer.from(bytes).toString('hex')`: two lowercase hex digits per byte. -/
def bytesToHexChars : List Nat → List Char
  | [] => []
  | b :: bs => hexDigitChar (b / 16) :: hexDigitChar (b % 16) :: bytesToHexChars bs

/-- The Key Material Formatter (spec §4.5): source lines
`const hexString = Buffer.from(decryptedBuffer).toString('hex');
return ` followed by `0x` and the hex string — a pure, total
transformation with no length check. -/
def formatKeyMaterial (pt : List Nat) : List Char :=
  '0' :: 'x' :: bytesToHexChars pt

theorem length_bytesToHexChars (bs : List Nat) :
    (bytesToHexChars bs).length = 2 * bs.length := by
  induction bs with
  | nil => rfl
  | cons b bs ih => simp [bytesToHexChars, ih]; omega

theorem hexDigitChar_mem_alphabet (n : Nat) : hexDigitChar n ∈ hexAlphabet := by
  by_cases h : n < 16
  · interval_cases n <;> decide
  · have hlen : hexAlphabet.length = 16 := rfl
    rw [hexDigitChar, List.getD_eq_default]
    · decide
    · omega

theorem mem_bytesToHexChars (bs : List Nat) :
    ∀ c ∈ bytesToHexChars bs, c ∈ hexAlphabet := by
  induction bs with
  | nil => intro c hc; simp [bytesToHexChars] at hc
  | cons b bs ih =>
    intro c hc
    simp only [bytesToHexChars, List.mem_cons] at hc
    rcases hc with h | h | h
    · rw [h]; exact hexDigitChar_mem_alphabet _
    · rw [h]; exact hexDigitChar_mem_alphabet _
    · exact ih c h

/-! ## Symbolic model of the external cryptographic primitives

The repository delegates all cryptography to `@hpke/core`,
`@hpke/chacha20poly1305` and WebCrypto. These are modelled from the
spec (§3, §4.1, §4.4): an ephemeral P-256 keypair is a scalar `s` with
`1 ≤ s < 2 ^ 256`; exported key encodings are a fixed DER-style header
followed by the 32-byte scalar; DH key agreement is modelled by the
commutative product of the two scalars; the AEAD is modelled as an
idealized authenticated cipher: the body is the masked plaintext and
the tag section binds the key, the associated data and the body, so
decryption is all-or-nothing. -/

/-- Modelled from the spec: fixed header of a PKCS8 `exportKey` result
(WebCrypto is external to the repository). -/
def pkcs8Header : List Nat := [48, 129, 135, 2, 1, 0]

/-- Modelled from the spec: fixed header of an SPKI `exportKey` result. -/
def spkiHeader : List Nat := [48, 89, 48, 19]

/-- Modelled from the spec: `crypto.subtle.exportKey('pkcs8', privateKey)`
for a P-256 private scalar. -/
def exportPkcs8 (s : Nat) : List Nat := pkcs8Header ++ natToLEBytes 32 s

/-- Modelled from the spec: `crypto.subtle.exportKey('spki', publicKey)`. -/
def exportSpki (s : Nat) : List Nat := spkiHeader ++ natToLEBytes 32 s

/-- Modelled from the spec: `crypto.subtle.importKey('pkcs8', …,
{ name: 'ECDH', namedCurve: 'P-256' }, …)` — parses the header and the
32-byte scalar, failing on malformed input. -/
def importPkcs8EcdhP256 (bytes : List Nat) : Option Nat :=
  if bytes.take 6 = pkcs8Header ∧ (bytes.drop 6).length = 32 then
    some (leBytesToNat (bytes.drop 6))
  else none

/-- Modelled from the spec: the sender side's parse of the recipient
public key. -/
def parseSpki (bytes : List Nat) : Option Nat :=
  if bytes.take 4 = spkiHeader ∧ (bytes.drop 4).length = 32 then
    some (leBytesToNat (bytes.drop 4))
  else none

/-- Modelled from the spec: DHKEM-P256 decapsulation
(`suite.createRecipientContext` with `recipientKey` and `enc`): the
encapsulated key is the 32-byte encoding of the sender's ephemeral
scalar, and the derived AEAD key is the commutative DH product. -/
def p256Decapsulate (s : Nat) (enc : List Nat) : Option Nat :=
  if enc.length = 32 then some (s * leBytesToNat enc) else none

/-- Modelled from the spec: the ChaCha20 keystream masking of one byte. -/
def maskByte (k b : Nat) : Nat := b ^^^ k % 256

/-- Masked body of a plaintext. -/
def maskBytes (k : Nat) (pt : List Nat) : List Nat := pt.map (maskByte k)

/-- Modelled from the spec: the authentication-tag section binding the
AEAD key, the associated data and the ciphertext body. -/
def aeadTagSection (k : Nat) (aad body : List Nat) : List Nat :=
  (natToLEBytes 64 k ++ ((aad.length % 256) :: aad)) ++ body

/-- Modelled from the spec: idealized ChaCha20-Poly1305 seal — masked
body followed by the tag section. -/
def aeadSeal (k : Nat) (aad pt : List Nat) : List Nat :=
  maskBytes k pt ++ aeadTagSection k aad (maskBytes k pt)

/-- Modelled from the spec: idealized ChaCha20-Poly1305 open
(`recipient.open`) — verifies the tag section and unmasks the body;
all-or-nothing. -/
def aeadOpen (k : Nat) (aad ct : List Nat) : Option (List Nat) :=
  let m := 65 + aad.length
  let n := (ct.length - m) / 2
  if ct.length = 2 * n + m then
    if ct.drop n = aeadTagSection k aad (ct.take n) then
      some (maskBytes k (ct.take n))
    else none
  else none

theorem length_maskBytes (k : Nat) (pt : List Nat) :
    (maskBytes k pt).length = pt.length := by
  simp [maskBytes]

theorem maskBytes_maskBytes (k : Nat) (pt : List Nat) :
    maskBytes k (maskBytes k pt) = pt := by
  simp only [maskBytes, List.map_map]
  have : maskByte k ∘ maskByte k = id := by
    funext b
    simp [maskByte, Nat.xor_assoc]
  rw [this, List.map_id]

theorem maskBytes_inj {k : Nat} {pt q : List Nat}
    (h : maskBytes k pt = maskBytes k q) : pt = q := by
  have := congrArg (maskBytes k) h
  rwa [maskBytes_maskBytes, maskBytes_maskBytes] at this

theorem maskBytes_lt {k : Nat} {pt : List Nat} (h : ∀ b ∈ pt, b < 256) :
    ∀ b ∈ maskBytes k pt, b < 256 := by
  intro b hb
  simp only [maskBytes, List.mem_map] at hb
  obtain ⟨a, ha, rfl⟩ := hb
  have h1 : a < 2 ^ 8 := h a ha
  have h2 : k % 256 < 2 ^ 8 := by omega
  simpa using Nat.xor_lt_two_pow h1 h2

theorem length_aeadSeal (k : Nat) (aad pt : List Nat) :
    (aeadSeal k aad pt).length = 2 * pt.length + (65 + aad.length) := by
  simp [aeadSeal, aeadTagSection, length_maskBytes, length_natToLEBytes]
  omega

theorem aeadSeal_bytes_lt {k : Nat} {aad pt : List Nat}
    (hpt : ∀ b ∈ pt, b < 256) (haad : ∀ b ∈ aad, b < 256) :
    ∀ b ∈ aeadSeal k aad pt, b < 256 := by
  rw [aeadSeal, aeadTagSection]
  refine List.forall_mem_append.mpr ⟨maskBytes_lt hpt, ?_⟩
  refine List.forall_mem_append.mpr ⟨?_, maskBytes_lt hpt⟩
  refine List.forall_mem_append.mpr ⟨mem_natToLEBytes_lt 64 k, ?_⟩
  intro b hb
  rcases List.mem_cons.mp hb with h | h
  · omega
  · exact haad b h

/-- Correctness of the idealized AEAD: opening a sealed message under
the same key and associated data recovers the plaintext. -/
theorem aeadOpen_aeadSeal (k : Nat) (aad pt : List Nat) :
    aeadOpen k aad (aeadSeal k aad pt) = some pt := by
  have hlen := length_aeadSeal k aad pt
  have hbody : (maskBytes k pt).length = pt.length := length_maskBytes k pt
  simp only [aeadOpen]
  have hn : ((aeadSeal k aad pt).length - (65 + aad.length)) / 2 = pt.length := by
    omega
  rw [hn, if_pos (by omega)]
  have htake : (aeadSeal k aad pt).take pt.length = maskBytes k pt := by
    rw [aeadSeal, List.take_left' hbody]
  have hdrop : (aeadSeal k aad pt).drop pt.length
      = aeadTagSection k aad (maskBytes k pt) := by
    rw [aeadSeal, List.drop_left' hbody]
  rw [htake, hdrop, if_pos rfl, maskBytes_maskBytes]

/-- Soundness of the idealized AEAD: any successful open exhibits the
ciphertext as a seal of the returned plaintext. -/
theorem aeadOpen_sound {k : Nat} {aad ct pt : List Nat}
    (h : aeadOpen k aad ct = some pt) : ct = aeadSeal k aad pt := by
  simp only [aeadOpen] at h
  set m := 65 + aad.length with hm
  set n := (ct.length - m) / 2 with hn
  by_cases hlen : ct.length = 2 * n + m
  · rw [if_pos hlen] at h
    by_cases htag : ct.drop n = aeadTagSection k aad (ct.take n)
    · rw [if_pos htag] at h
      have hpt : pt = maskBytes k (ct.take n) := by
        exact (Option.some.injEq _ _).mp h.symm
      have hbody : maskBytes k pt = ct.take n := by
        rw [hpt, maskBytes_maskBytes]
      rw [aeadSeal, hbody, ← htag, List.take_append_drop]
    · rw [if_neg htag] at h; cases h
  · rw [if_neg hlen] at h; cases h

/-! ## The HPKE cipher suite and the decryption engine -/

/-- HPKE KEM identifiers (the `@hpke/core` KEM classes). -/
inductive KemId where
  | dhkemP256HkdfSha256
  | dhkemX25519HkdfSha256
deriving DecidableEq

/-- HPKE KDF identifiers. -/
inductive KdfId where
  | hkdfSha256
  | hkdfSha384
deriving DecidableEq

/-- HPKE AEAD identifiers. -/
inductive AeadId where
  | chacha20Poly1305
  | aes128Gcm
deriving DecidableEq

/-- An instantiated `CipherSuite` configuration. -/
structure CipherSuiteConfig where
  kem : KemId
  kdf : KdfId
  aead : AeadId
deriving DecidableEq

/-- The suite the source instantiates (`new CipherSuite({ kem: new
DhkemP256HkdfSha256(), kdf: new HkdfSha256(), aead: new
Chacha20Poly1305() })`, source lines 164–168). -/
def mkCipherSuite : CipherSuiteConfig :=
  { kem := .dhkemP256HkdfSha256, kdf := .hkdfSha256, aead := .chacha20Poly1305 }

/-- WebCrypto key import formats. -/
inductive KeyImportFormat where
  | pkcs8
  | spki
  | raw
deriving DecidableEq

/-- WebCrypto key algorithms. -/
inductive KeyAlgorithm where
  | ecdh
  | ecdsa
deriving DecidableEq

/-- Named curves. -/
inductive CurveName where
  | p256
  | p384
deriving DecidableEq

/-- Modelled from the spec: `crypto.subtle.importKey` — the repository
only exercises the `('pkcs8', ECDH, P-256)` combination; the model
implements exactly that one. -/
def importKeyModel (fmt : KeyImportFormat) (alg : KeyAlgorithm)
    (curve : CurveName) (bytes : List Nat) : Option Nat :=
  match fmt, alg, curve with
  | .pkcs8, .ecdh, .p256 => importPkcs8EcdhP256 bytes
  | _, _, _ => none

/-- KEM decapsulation dispatched on the suite's KEM choice
(`suite.createRecipientContext`). Only the repository's fixed KEM is
implemented. -/
def suiteDecapsulate (cfg : CipherSuiteConfig) (s : Nat) (enc : List Nat) :
    Option Nat :=
  match cfg.kem with
  | .dhkemP256HkdfSha256 => p256Decapsulate s enc
  | .dhkemX25519HkdfSha256 => none

/-- AEAD open dispatched on the suite's AEAD choice (`recipient.open`).
Only the repository's fixed AEAD is implemented. -/
def suiteOpen (cfg : CipherSuiteConfig) (k : Nat) (aad ct : List Nat) :
    Option (List Nat) :=
  match cfg.aead with
  | .chacha20Poly1305 => aeadOpen k aad ct
  | .aes128Gcm => none

/-- Error taxonomy of the pipeline (spec §7). The source throws plain
`Error` objects; constructors carry the thrown message where one is
built from data. -/
inductive PipelineError where
  | invalidBase64
  | keyImportFailed
  | decapsulationFailed
  | decryptionFailure
  | configurationError
  | signatureUndefined
  | exportRejected (msg : List Char)
deriving DecidableEq

/-- The HPKE Decryption Engine, translated from `decryptHPKEMessage`
(source lines 159–184): instantiate the fixed suite, base64-decode the
PKCS8 ephemeral private key and import it as an ECDH P-256 key,
base64-decode the encapsulated key and establish the recipient
context, base64-decode and open the ciphertext with no associated
data, and render the plaintext as `0x` followed by lowercase hex. -/
def decryptHPKEMessage (privateKeyBase64 encapsulatedKeyBase64 ciphertextBase64 :
    List Char) : Except PipelineError (List Char) :=
  let suite := mkCipherSuite
  match b64DecodeChars privateKeyBase64 with
  | none => .error .invalidBase64
  | some privateKeyBytes =>
    match importKeyModel .pkcs8 .ecdh .p256 privateKeyBytes with
    | none => .error .keyImportFailed
    | some privateKey =>
      match b64DecodeChars encapsulatedKeyBase64 with
      | none => .error .invalidBase64
      | some encBytes =>
        match suiteDecapsulate suite privateKey encBytes with
        | none => .error .decapsulationFailed
        | some aeadKey =>
          match b64DecodeChars ciphertextBase64 with
          | none => .error .invalidBase64
          | some ctBytes =>
            match suiteOpen suite aeadKey [] ctBytes with
            | none => .error .decryptionFailure
            | some decryptedBuffer => .ok (formatKeyMaterial decryptedBuffer)

/-- Follows the spec's words (§4.4 steps 1–5): the decryption engine
with the fixed algorithm triple hard-wired — PKCS8 ECDH P-256 import,
DHKEM-P256 decapsulation, ChaCha20-Poly1305 open with no associated
data, `0x`-hex rendering. Used only to compare against the
source-translated `decryptHPKEMessage`. -/
def decryptHPKEMessageSpec (privateKeyBase64 encapsulatedKeyBase64
    ciphertextBase64 : List Char) : Except PipelineError (List Char) :=
  match b64DecodeChars privateKeyBase64 with
  | none => .error .invalidBase64
  | some privateKeyBytes =>
    match importPkcs8EcdhP256 privateKeyBytes with
    | none => .error .keyImportFailed
    | some privateKey =>
      match b64DecodeChars encapsulatedKeyBase64 with
      | none => .error .invalidBase64
      | some encBytes =>
        match p256Decapsulate privateKey encBytes with
        | none => .error .decapsulationFailed
        | some aeadKey =>
          match b64DecodeChars ciphertextBase64 with
          | none => .error .invalidBase64
          | some ctBytes =>
            match aeadOpen aeadKey [] ctBytes with
            | none => .error .decryptionFailure
            | some decryptedBuffer => .ok (formatKeyMaterial decryptedBuffer)

/-- Modelled from the spec: the reference HPKE sender under the same
fixed suite — encapsulates a fresh ephemeral scalar `eph` against the
recipient's public key and seals the plaintext under the derived
shared key, with no associated data. Returns `(encapsulatedKey,
ciphertext)`. -/
def hpkeReferenceSeal (recipientSpki : List Nat) (eph : Nat) (pt : List Nat) :
    Option (List Nat × List Nat) :=
  match parseSpki recipientSpki with
  | none => none
  | some s => some (natToLEBytes 32 eph, aeadSeal (eph * s) [] pt)

theorem pkcs8Header_lt : ∀ b ∈ pkcs8Header, b < 256 := by decide

theorem spkiHeader_lt : ∀ b ∈ spkiHeader, b < 256 := by decide

theorem exportPkcs8_bytes_lt (s : Nat) : ∀ b ∈ exportPkcs8 s, b < 256 := by
  rw [exportPkcs8]
  exact List.forall_mem_append.mpr ⟨pkcs8Header_lt, mem_natToLEBytes_lt 32 s⟩

theorem exportSpki_bytes_lt (s : Nat) : ∀ b ∈ exportSpki s, b < 256 := by
  rw [exportSpki]
  exact List.forall_mem_append.mpr ⟨spkiHeader_lt, mem_natToLEBytes_lt 32 s⟩

theorem pow_256_32 : (256 : Nat) ^ 32 = 2 ^ 256 := by norm_num

theorem importPkcs8_exportPkcs8 {s : Nat} (hs : s < 2 ^ 256) :
    importPkcs8EcdhP256 (exportPkcs8 s) = some s := by
  have htake : (exportPkcs8 s).take 6 = pkcs8Header :=
    List.take_left' (by rfl)
  have hdrop : (exportPkcs8 s).drop 6 = natToLEBytes 32 s :=
    List.drop_left' (by rfl)
  rw [importPkcs8EcdhP256, htake, hdrop,
    if_pos ⟨rfl, length_natToLEBytes 32 s⟩, leBytesToNat_natToLEBytes,
    pow_256_32, Nat.mod_eq_of_lt hs]

theorem parseSpki_exportSpki {s : Nat} (hs : s < 2 ^ 256) :
    parseSpki (exportSpki s) = some s := by
  have htake : (exportSpki s).take 4 = spkiHeader :=
    List.take_left' (by rfl)
  have hdrop : (exportSpki s).drop 4 = natToLEBytes 32 s :=
    List.drop_left' (by rfl)
  rw [parseSpki, htake, hdrop,
    if_pos ⟨rfl, length_natToLEBytes 32 s⟩, leBytesToNat_natToLEBytes,
    pow_256_32, Nat.mod_eq_of_lt hs]

theorem p256Decapsulate_natToLEBytes {s e : Nat} (he : e < 2 ^ 256) :
    p256Decapsulate s (natToLEBytes 32 e) = some (s * e) := by
  rw [p256Decapsulate, if_pos (length_natToLEBytes 32 e),
    leBytesToNat_natToLEBytes, pow_256_32, Nat.mod_eq_of_lt he]

/-- C1: For every valid triple (ephemeral P-256 keypair, encapsulated
key, ciphertext) produced by a reference HPKE encryption under the
fixed DHKEM-P256-HKDF-SHA256 / HKDF-SHA256 / ChaCha20-Poly1305 suite,
`decryptHPKEMessage` applied to the base64 encodings of the private
key, encapsulated key and ciphertext returns exactly `0x` followed by
the hex encoding of the original plaintext bytes — the full plaintext,
never partial or truncated. -/
theorem decryptHPKEMessage_roundtrip (s eph : Nat) (pt enc ct : List Nat)
    (hs1 : 1 ≤ s) (hs2 : s < 2 ^ 256)
    (he1 : 1 ≤ eph) (he2 : eph < 2 ^ 256)
    (hpt : ∀ b ∈ pt, b < 256)
    (hseal : hpkeReferenceSeal (exportSpki s) eph pt = some (enc, ct)) :
    decryptHPKEMessage (b64EncodeBytes (exportPkcs8 s)) (b64EncodeBytes enc)
      (b64EncodeBytes ct) = .ok ('0' :: 'x' :: bytesToHexChars pt) := by
  rw [hpkeReferenceSeal, parseSpki_exportSpki hs2] at hseal
  have henc : enc = natToLEBytes 32 eph := by
    cases hseal; rfl
  have hct : ct = aeadSeal (eph * s) [] pt := by
    cases hseal; rfl
  subst henc hct
  have h1 : b64DecodeChars (b64EncodeBytes (exportPkcs8 s))
      = some (exportPkcs8 s) := b64_roundtrip _ (exportPkcs8_bytes_lt s)
  have h2 : b64DecodeChars (b64EncodeBytes (natToLEBytes 32 eph))
      = some (natToLEBytes 32 eph) := b64_roundtrip _ (mem_natToLEBytes_lt 32 eph)
  have h3 : b64DecodeChars (b64EncodeBytes (aeadSeal (eph * s) [] pt))
      = some (aeadSeal (eph * s) [] pt) :=
    b64_roundtrip _ (aeadSeal_bytes_lt hpt (by simp))
  have hopen : aeadOpen (s * eph) [] (aeadSeal (eph * s) [] pt) = some pt := by
    rw [Nat.mul_comm s eph]
    exact aeadOpen_aeadSeal (eph * s) [] pt
  simp only [decryptHPKEMessage, h1, h2, h3, importKeyModel,
    importPkcs8_exportPkcs8 hs2, suiteDecapsulate, mkCipherSuite,
    p256Decapsulate_natToLEBytes he2, suiteOpen, hopen, formatKeyMaterial]

/-- Witness for C1 at a concrete valid triple. -/
theorem decryptHPKEMessage_roundtrip_witness :
    decryptHPKEMessage (b64EncodeBytes (exportPkcs8 7))
      (b64EncodeBytes (natToLEBytes 32 5))
      (b64EncodeBytes (aeadSeal (5 * 7) [] [171, 0, 255]))
      = .ok ('0' :: 'x' :: bytesToHexChars [171, 0, 255]) :=
  decryptHPKEMessage_roundtrip 7 5 [171, 0, 255] (natToLEBytes 32 5)
    (aeadSeal (5 * 7) [] [171, 0, 255])
    (by norm_num) (by norm_num) (by norm_num) (by norm_num)
    (by decide) (by rfl)

/-- C3: The decryption engine always instantiates exactly the fixed
triple KEM = DHKEM-P256-HKDF-SHA256, KDF = HKDF-SHA256, AEAD =
ChaCha20-Poly1305, imports the ephemeral private key as an ECDH P-256
key from PKCS8, establishes the recipient context from that key and
the decoded encapsulated key, and opens the ciphertext with no
associated data: on every input it agrees with the engine that has
this fixed suite hard-wired, and no other suite is ever used. -/
theorem decryptHPKEMessage_fixed_suite :
    mkCipherSuite = CipherSuiteConfig.mk KemId.dhkemP256HkdfSha256
      KdfId.hkdfSha256 AeadId.chacha20Poly1305 ∧
    ∀ privB64 encB64 ctB64 : List Char,
      decryptHPKEMessage privB64 encB64 ctB64
        = decryptHPKEMessageSpec privB64 encB64 ctB64 :=
  ⟨rfl, fun _ _ _ => rfl⟩

theorem pow_256_64 : (256 : Nat) ^ 64 = 2 ^ 512 := by norm_num

theorem leBytesToNat_lt : ∀ (l : List Nat), (∀ b ∈ l, b < 256) →
    leBytesToNat l < 256 ^ l.length := by
  intro l
  induction l with
  | nil => intro _; simp [leBytesToNat]
  | cons b bs ih =>
    intro h
    have hb : b < 256 := h b (by simp)
    have hbs := ih (fun x hx => h x (by simp [hx]))
    simp only [leBytesToNat, List.length_cons, pow_succ]
    calc b + 256 * leBytesToNat bs
        < 256 * (leBytesToNat bs + 1) := by omega
      _ ≤ 256 * 256 ^ bs.length :=
          Nat.mul_le_mul_left 256 (Nat.succ_le_of_lt hbs)
      _ = 256 ^ bs.length * 256 := by ring

/-- If overwriting position `i` of `l` with `v` leaves `l` unchanged,
then `v` was the value at position `i`. -/
theorem eq_get_of_set_eq_self {l : List Nat} {i v : Nat} (hi : i < l.length)
    (h : l.set i v = l) : v = l.get ⟨i, hi⟩ := by
  have h1 : (l.set i v)[i]? = some v := List.getElem?_set_self hi
  rw [h, List.getElem?_eq_getElem hi] at h1
  simp only [List.get_eq_getElem]
  exact (Option.some_inj.mp h1).symm

/-- A single-position modification of a sealed ciphertext is not a
sealed ciphertext of any plaintext under the same key and associated
data: the body and the tag section each determine the other. -/
theorem aeadSeal_flip_ne (k : Nat) (aad pt q : List Nat) (i : Nat)
    (h : i < (aeadSeal k aad pt).length) (v : Nat)
    (hv : v ≠ (aeadSeal k aad pt).get ⟨i, h⟩) :
    (aeadSeal k aad pt).set i v ≠ aeadSeal k aad q := by
  intro heq
  simp only [List.get_eq_getElem] at hv
  have hlenpq : pt.length = q.length := by
    have h1 := congrArg List.length heq
    rw [List.length_set, length_aeadSeal, length_aeadSeal] at h1
    omega
  have hBlen : (maskBytes k pt).length = (maskBytes k q).length := by
    rw [length_maskBytes, length_maskBytes, hlenpq]
  by_cases hi : i < (maskBytes k pt).length
  · -- the flip lands in the body region
    rw [aeadSeal, List.set_append_left i v hi] at heq
    have hinj := List.append_inj heq (by rw [List.length_set]; exact hBlen)
    obtain ⟨hB, hT⟩ := hinj
    have hBB : maskBytes k pt = maskBytes k q := by
      rw [aeadTagSection, aeadTagSection] at hT
      exact List.append_cancel_left hT
    rw [← hBB] at hB
    have hvi : v = (maskBytes k pt).get ⟨i, hi⟩ := eq_get_of_set_eq_self hi hB
    have e1 : (aeadSeal k aad pt)[i]? = (maskBytes k pt)[i]? :=
      List.getElem?_append_left hi
    rw [List.getElem?_eq_getElem h, List.getElem?_eq_getElem hi] at e1
    have : (aeadSeal k aad pt)[i] = (maskBytes k pt)[i] := Option.some_inj.mp e1
    rw [this] at hv
    simp only [List.get_eq_getElem] at hvi
    exact hv hvi
  · -- the flip lands in the tag section
    push_neg at hi
    rw [aeadSeal, List.set_append_right i v hi] at heq
    have hinj := List.append_inj heq hBlen
    obtain ⟨hB, hT⟩ := hinj
    have hpq : pt = q := maskBytes_inj hB
    subst hpq
    have hj : i - (maskBytes k pt).length
        < (aeadTagSection k aad (maskBytes k pt)).length := by
      have h' := h
      rw [aeadSeal, List.length_append] at h'
      omega
    have hvi : v = (aeadTagSection k aad (maskBytes k pt)).get
        ⟨i - (maskBytes k pt).length, hj⟩ := eq_get_of_set_eq_self hj hT
    have e1 : (aeadSeal k aad pt)[i]?
        = (aeadTagSection k aad (maskBytes k pt))[i - (maskBytes k pt).length]? :=
      List.getElem?_append_right hi
    rw [List.getElem?_eq_getElem h, List.getElem?_eq_getElem hj] at e1
    have : (aeadSeal k aad pt)[i]
        = (aeadTagSection k aad (maskBytes k pt))[i - (maskBytes k pt).length] :=
      Option.some_inj.mp e1
    rw [this] at hv
    simp only [List.get_eq_getElem] at hvi
    exact hv hvi

/-- Tamper detection of the idealized AEAD: opening any single-position
modification of a sealed ciphertext fails. -/
theorem aeadOpen_flip_none (k : Nat) (aad pt : List Nat) (i : Nat)
    (h : i < (aeadSeal k aad pt).length) (v : Nat)
    (hv : v ≠ (aeadSeal k aad pt).get ⟨i, h⟩) :
    aeadOpen k aad ((aeadSeal k aad pt).set i v) = none := by
  cases hopen : aeadOpen k aad ((aeadSeal k aad pt).set i v) with
  | none => rfl
  | some q => exact absurd (aeadOpen_sound hopen) (aeadSeal_flip_ne k aad pt q i h v hv)

/-- Key binding of the idealized AEAD: opening under a different key
fails, for keys in the range produced by DH agreement of valid
scalars. -/
theorem aeadOpen_wrong_key {k k' : Nat} (hk : k' ≠ k) (hk1 : k < 2 ^ 512)
    (hk2 : k' < 2 ^ 512) (aad pt : List Nat) :
    aeadOpen k' aad (aeadSeal k aad pt) = none := by
  have hlen := length_aeadSeal k aad pt
  have hbody : (maskBytes k pt).length = pt.length := length_maskBytes k pt
  simp only [aeadOpen]
  have hn : ((aeadSeal k aad pt).length - (65 + aad.length)) / 2 = pt.length := by
    omega
  rw [hn, if_pos (by omega)]
  have htake : (aeadSeal k aad pt).take pt.length = maskBytes k pt := by
    rw [aeadSeal, List.take_left' hbody]
  have hdrop : (aeadSeal k aad pt).drop pt.length
      = aeadTagSection k aad (maskBytes k pt) := by
    rw [aeadSeal, List.drop_left' hbody]
  rw [htake, hdrop, if_neg]
  intro heq
  rw [aeadTagSection, aeadTagSection] at heq
  have hinj := List.append_inj heq rfl
  have hkeys := List.append_inj hinj.1 (by rw [length_natToLEBytes, length_natToLEBytes])
  have : k = k' := by
    apply natToLEBytes_inj (w := 64)
    · rw [pow_256_64]; exact hk1
    · rw [pow_256_64]; exact hk2
    · exact hkeys.1
  exact hk this.symm

theorem set_bytes_lt {l : List Nat} {i v : Nat} (hl : ∀ b ∈ l, b < 256)
    (hv : v < 256) : ∀ b ∈ l.set i v, b < 256 := by
  intro b hb
  rcases List.mem_or_eq_of_mem_set hb with h | h
  · exact hl b h
  · omega

/-- C2: For every valid HPKE triple, flipping any single byte of the
ciphertext, or any single byte of the encapsulated key, makes
`decryptHPKEMessage` fail with the DecryptionFailure error — it never
returns a corrupted or truncated hex string. -/
theorem decryptHPKEMessage_flip (s eph : Nat) (pt enc ct : List Nat)
    (hs1 : 1 ≤ s) (hs2 : s < 2 ^ 256)
    (he1 : 1 ≤ eph) (he2 : eph < 2 ^ 256)
    (hpt : ∀ b ∈ pt, b < 256)
    (hseal : hpkeReferenceSeal (exportSpki s) eph pt = some (enc, ct)) :
    (∀ i (hi : i < ct.length) v, v < 256 → v ≠ ct.get ⟨i, hi⟩ →
      decryptHPKEMessage (b64EncodeBytes (exportPkcs8 s)) (b64EncodeBytes enc)
        (b64EncodeBytes (ct.set i v)) = .error .decryptionFailure) ∧
    (∀ i (hi : i < enc.length) v, v < 256 → v ≠ enc.get ⟨i, hi⟩ →
      decryptHPKEMessage (b64EncodeBytes (exportPkcs8 s))
        (b64EncodeBytes (enc.set i v)) (b64EncodeBytes ct)
        = .error .decryptionFailure) := by
  rw [hpkeReferenceSeal, parseSpki_exportSpki hs2] at hseal
  have henc : enc = natToLEBytes 32 eph := by cases hseal; rfl
  have hct : ct = aeadSeal (eph * s) [] pt := by cases hseal; rfl
  subst henc hct
  have h1 : b64DecodeChars (b64EncodeBytes (exportPkcs8 s))
      = some (exportPkcs8 s) := b64_roundtrip _ (exportPkcs8_bytes_lt s)
  have h2 : b64DecodeChars (b64EncodeBytes (natToLEBytes 32 eph))
      = some (natToLEBytes 32 eph) := b64_roundtrip _ (mem_natToLEBytes_lt 32 eph)
  have hctlt : ∀ b ∈ aeadSeal (eph * s) [] pt, b < 256 :=
    aeadSeal_bytes_lt hpt (by simp)
  constructor
  · -- ciphertext flip
    intro i hi v hv hne
    have h3 : b64DecodeChars (b64EncodeBytes ((aeadSeal (eph * s) [] pt).set i v))
        = some ((aeadSeal (eph * s) [] pt).set i v) :=
      b64_roundtrip _ (set_bytes_lt hctlt hv)
    have hopen : aeadOpen (s * eph) [] ((aeadSeal (eph * s) [] pt).set i v)
        = none := by
      rw [Nat.mul_comm s eph]
      exact aeadOpen_flip_none (eph * s) [] pt i hi v hne
    simp only [decryptHPKEMessage, h1, h2, h3, importKeyModel,
      importPkcs8_exportPkcs8 hs2, suiteDecapsulate, mkCipherSuite,
      p256Decapsulate_natToLEBytes he2, suiteOpen, hopen]
  · -- encapsulated-key flip
    intro i hi v hv hne
    have hlt' : ∀ b ∈ (natToLEBytes 32 eph).set i v, b < 256 :=
      set_bytes_lt (mem_natToLEBytes_lt 32 eph) hv
    have h2' : b64DecodeChars (b64EncodeBytes ((natToLEBytes 32 eph).set i v))
        = some ((natToLEBytes 32 eph).set i v) := b64_roundtrip _ hlt'
    have h3 : b64DecodeChars (b64EncodeBytes (aeadSeal (eph * s) [] pt))
        = some (aeadSeal (eph * s) [] pt) := b64_roundtrip _ hctlt
    -- the modified encapsulated key decodes to a different scalar
    have hlen32 : ((natToLEBytes 32 eph).set i v).length = 32 := by
      rw [List.length_set, length_natToLEBytes]
    have he' : leBytesToNat ((natToLEBytes 32 eph).set i v) ≠ eph := by
      intro habs
      have hval : leBytesToNat ((natToLEBytes 32 eph).set i v)
          = leBytesToNat (natToLEBytes 32 eph) := by
        rw [habs, leBytesToNat_natToLEBytes, pow_256_32, Nat.mod_eq_of_lt he2]
      have heql : (natToLEBytes 32 eph).set i v = natToLEBytes 32 eph :=
        leBytesToNat_inj _ _ (by rw [hlen32, length_natToLEBytes]) hlt'
          (mem_natToLEBytes_lt 32 eph) hval
      exact hne (eq_get_of_set_eq_self hi heql)
    have hdecap : p256Decapsulate s ((natToLEBytes 32 eph).set i v)
        = some (s * leBytesToNat ((natToLEBytes 32 eph).set i v)) := by
      rw [p256Decapsulate, if_pos hlen32]
    have hkne : s * leBytesToNat ((natToLEBytes 32 eph).set i v) ≠ eph * s := by
      intro habs
      rw [Nat.mul_comm eph s] at habs
      exact he' (Nat.eq_of_mul_eq_mul_left (by omega) habs)
    have hkbound : s * leBytesToNat ((natToLEBytes 32 eph).set i v) < 2 ^ 512 := by
      have hb := leBytesToNat_lt _ hlt'
      rw [hlen32] at hb
      have : (256 : Nat) ^ 32 = 2 ^ 256 := pow_256_32
      calc s * leBytesToNat ((natToLEBytes 32 eph).set i v)
          < 2 ^ 256 * 2 ^ 256 := by
            apply Nat.mul_lt_mul_of_lt_of_le hs2
            · omega
            · omega
        _ = 2 ^ 512 := by norm_num
    have hopen : aeadOpen (s * leBytesToNat ((natToLEBytes 32 eph).set i v)) []
        (aeadSeal (eph * s) [] pt) = none := by
      apply aeadOpen_wrong_key hkne _ hkbound
      calc eph * s < 2 ^ 256 * 2 ^ 256 :=
            Nat.mul_lt_mul_of_lt_of_le he2 (by omega) (by omega)
        _ = 2 ^ 512 := by norm_num
    simp only [decryptHPKEMessage, h1, h2', h3, importKeyModel,
      importPkcs8_exportPkcs8 hs2, suiteDecapsulate, mkCipherSuite,
      hdecap, suiteOpen, hopen]

/-- Witness for C2 at a concrete valid triple and a concrete one-byte
flip of the ciphertext. -/
theorem decryptHPKEMessage_flip_witness :
    decryptHPKEMessage (b64EncodeBytes (exportPkcs8 7))
      (b64EncodeBytes (natToLEBytes 32 5))
      (b64EncodeBytes ((aeadSeal (5 * 7) [] [171, 0, 255]).set 0 9))
      = .error .decryptionFailure :=
  (decryptHPKEMessage_flip 7 5 [171, 0, 255] (natToLEBytes 32 5)
    (aeadSeal (5 * 7) [] [171, 0, 255]) (by norm_num) (by norm_num)
    (by norm_num) (by norm_num) (by decide) (by rfl)).1 0 (by decide) 9
    (by decide) (by decide)

/-- C7: For every 32-byte plaintext, the Key Material Formatter emits a
string of exactly 66 characters: `0x` followed by 64 lowercase
hexadecimal digits. -/
theorem formatKeyMaterial_spec32 (pt : List Nat) (hlen : pt.length = 32) :
    (formatKeyMaterial pt).length = 66 ∧
    formatKeyMaterial pt = '0' :: 'x' :: bytesToHexChars pt ∧
    (bytesToHexChars pt).length = 64 ∧
    ∀ c ∈ bytesToHexChars pt, c ∈ hexAlphabet := by
  have h1 : (bytesToHexChars pt).length = 64 := by
    rw [length_bytesToHexChars, hlen]
  refine ⟨?_, rfl, h1, mem_bytesToHexChars pt⟩
  simp [formatKeyMaterial, h1]

/-- Witness for C7 at a concrete 32-byte plaintext. -/
theorem formatKeyMaterial_spec32_witness :
    (formatKeyMaterial (List.replicate 32 171)).length = 66 ∧
    formatKeyMaterial (List.replicate 32 171)
      = '0' :: 'x' :: bytesToHexChars (List.replicate 32 171) ∧
    (bytesToHexChars (List.replicate 32 171)).length = 64 ∧
    ∀ c ∈ bytesToHexChars (List.replicate 32 171), c ∈ hexAlphabet :=
  formatKeyMaterial_spec32 (List.replicate 32 171) (by decide)

/-- C6 counterexample: the Key Material Formatter has no length check
at all — on a 16-byte plaintext it does not fail with a FormatError
but returns a well-formed hex string of (wrong) length 34. -/
theorem formatKeyMaterial_no_length_check :
    formatKeyMaterial (List.replicate 16 0)
      = '0' :: 'x' :: List.replicate 32 '0' ∧
    (formatKeyMaterial (List.replicate 16 0)).length = 34 := by
  constructor
  · rfl
  · rfl

/-- C6 amended: the Key Material Formatter is a total function with no
failure modes: for every plaintext byte sequence it returns `0x`
followed by two lowercase hex digits per input byte (length
`2 + 2·n`), even when the input length is not 32 bytes. -/
theorem formatKeyMaterial_total (pt : List Nat) :
    (formatKeyMaterial pt).length = 2 + 2 * pt.length ∧
    formatKeyMaterial pt = '0' :: 'x' :: bytesToHexChars pt ∧
    ∀ c ∈ bytesToHexChars pt, c ∈ hexAlphabet := by
  refine ⟨?_, rfl, mem_bytesToHexChars pt⟩
  simp [formatKeyMaterial, length_bytesToHexChars]
  omega

/-! ## The export pipeline (`exportWalletPrivateKey`, `main`) -/

/-- Whether `needle` occurs contiguously inside `haystack`. -/
def containsSub (needle : List Char) : List Char → Bool
  | [] => needle.isEmpty
  | c :: rest => needle.isPrefixOf (c :: rest) || containsSub needle rest

/-- The signing input built by the source (lines 209–218): headers
`privy-app-id`, method POST, the export URL, version 1, and the body
fields `encryption_type: 'HPKE'` and `recipient_public_key`. -/
structure SignatureInput where
  appIdHeader : List Char
  url : List Char
  recipientPublicKey : List Char
deriving DecidableEq

/-- Canonical serialization prefix of a signing input: everything up to
(and excluding) the recipient public key, which the serialization
ends with. -/
def signatureSerializePrefix (input : SignatureInput) : List Char :=
  "POST|".toList ++ input.url ++ "|privy-app-id=".toList ++ input.appIdHeader
    ++ "|1|HPKE|recipient_public_key=".toList

/-- Modelled from the spec: `generateAuthorizationSignature` from the
external Privy SDK (spec §4.2) — a deterministic canonical
serialization of the descriptor bound to the service authorization
key. -/
def generateAuthorizationSignature (input : SignatureInput)
    (authorizationPrivateKey : List Char) : List Char :=
  (signatureSerializePrefix input ++ input.recipientPublicKey)
    ++ '#' :: authorizationPrivateKey

/-- UTF-8 encoding of one character (`Buffer.from(string)`). -/
def utf8EncodeChar (c : Char) : List Nat :=
  let n := c.toNat
  if n < 0x80 then [n]
  else if n < 0x800 then [0xC0 + n / 64, 0x80 + n % 64]
  else if n < 0x10000 then
    [0xE0 + n / 4096, 0x80 + n / 64 % 64, 0x80 + n % 64]
  else
    [0xF0 + n / 262144, 0x80 + n / 4096 % 64, 0x80 + n / 64 % 64, 0x80 + n % 64]

/-- UTF-8 encoding of a string. -/
def utf8Encode : List Char → List Nat
  | [] => []
  | c :: cs => utf8EncodeChar c ++ utf8Encode cs

/-- An HTTP response from the custody export endpoint: status, body
text, and the two JSON fields the source reads from the body. -/
structure HttpResponse where
  status : Nat
  bodyText : List Char
  encapsulatedKey : List Char
  ciphertext : List Char

/-- `response.ok`: status in the 2xx range. -/
def responseOk (status : Nat) : Bool := 200 ≤ status && status < 300

/-- A wallet returned by `privy.walletApi.createWallet`. -/
structure WalletInfo where
  id : List Char

/-- The outbound export request (source lines 227–236). -/
structure ExportRequest where
  url : List Char
  appIdHeader : List Char
  contentType : List Char
  authorizationSignature : List Char
  authorizationBasic : List Char
  body : List Char
deriving DecidableEq

/-- JSON body `JSON.stringify(signatureInput.body)` with insertion
order `encryption_type` then `recipient_public_key`. -/
def jsonExportBody (recipientPublicKey : List Char) : List Char :=
  "\x7b\"encryption_type\":\"HPKE\",\"recipient_public_key\":\"".toList
    ++ recipientPublicKey ++ "\"\x7d".toList

/-- A network side effect of the pipeline. -/
inductive NetworkCall where
  | createWalletCall (ownerPublicKey : List Char)
  | exportCall (req : ExportRequest)

/-- The remote custody service, abstracted as response functions. -/
structure Oracle where
  createWallet : List Char → WalletInfo
  exportEndpoint : ExportRequest → HttpResponse

/-- Modelled from the spec (§4.1): `crypto.subtle.generateKey({ name:
'ECDH', namedCurve: 'P-256' }, …)` driven by an entropy counter — each
invocation consumes one entropy value and produces a fresh valid P-256
scalar (nonzero, below the group order bound). -/
def p256ScalarOfEntropy (entropy : Nat) : Nat := entropy % (2 ^ 256 - 1) + 1

/-- Observable outcome of one `exportWalletPrivateKey` call: the
returned value or thrown error, the network calls issued, the advanced
entropy counter, and (for the freshness property) the ephemeral public
key and authorization signature the call used. -/
structure ExportOutcome where
  result : Except PipelineError (List Char)
  calls : List NetworkCall
  entropyOut : Nat
  recipientPublicKeyBase64 : List Char
  signature : List Char

/-- `exportWalletPrivateKey` (source lines 188–253): generate a fresh
ephemeral P-256 keypair, export both halves to base64, build and sign
the export request descriptor, POST it, fail on a non-2xx response
with the response body in the message, otherwise decrypt the returned
`encapsulated_key`/`ciphertext` pair with the ephemeral private
key. -/
def exportWalletPrivateKey (privyAppId privyAppSecret walletId
    authorizationPrivateKey : List Char) (oracle : Oracle) (entropy : Nat) :
    ExportOutcome :=
  let scalar := p256ScalarOfEntropy entropy
  let recipientPublicKeyBase64 := b64EncodeBytes (exportSpki scalar)
  let recipientPrivateKeyBase64 := b64EncodeBytes (exportPkcs8 scalar)
  let url := "https://auth.privy.io/v1/wallets/".toList ++ walletId
    ++ "/export".toList
  let signatureInput : SignatureInput :=
    ⟨privyAppId, url, recipientPublicKeyBase64⟩
  let signature :=
    generateAuthorizationSignature signatureInput authorizationPrivateKey
  let resultCalls : Except PipelineError (List Char) × List NetworkCall :=
    if signature = [] then (.error .signatureUndefined, [])
    else
      let req : ExportRequest :=
        { url := url
          appIdHeader := privyAppId
          contentType := "application/json".toList
          authorizationSignature := signature
          authorizationBasic := "Basic ".toList
            ++ b64EncodeBytes (utf8Encode (privyAppId ++ ':' :: privyAppSecret))
          body := jsonExportBody recipientPublicKeyBase64 }
      let response := oracle.exportEndpoint req
      if responseOk response.status then
        (decryptHPKEMessage recipientPrivateKeyBase64 response.encapsulatedKey
          response.ciphertext, [.exportCall req])
      else
        (.error (.exportRejected ("Failed to export wallet: ".toList
          ++ response.bodyText)), [.exportCall req])
  { result := resultCalls.1
    calls := resultCalls.2
    entropyOut := entropy + 1
    recipientPublicKeyBase64 := recipientPublicKeyBase64
    signature := signature }

/-- Process environment: the four required configuration values, each
possibly absent. -/
structure EnvConfig where
  privyAppId : Option (List Char)
  privyAppSecret : Option (List Char)
  privyAuthorizationPublicKey : Option (List Char)
  privyAuthorizationPrivateKey : Option (List Char)

/-- JS falsiness of `process.env.X as string`: absent or empty. -/
def envFalsy : Option (List Char) → Bool
  | none => true
  | some s => s.isEmpty

/-- The benchmark loop of `main` (source lines 274–287): twenty
sequential export calls threading the entropy counter; an error in any
iteration propagates (the `await` rejects `main`). -/
def mainLoop (privyAppId privyAppSecret walletId authorizationPrivateKey :
    List Char) (oracle : Oracle) :
    Nat → Nat → Except PipelineError Unit × List NetworkCall
  | 0, _ => (.ok (), [])
  | n + 1, entropy =>
    let o := exportWalletPrivateKey privyAppId privyAppSecret walletId
      authorizationPrivateKey oracle entropy
    match o.result with
    | .error e => (.error e, o.calls)
    | .ok _ =>
      let rest := mainLoop privyAppId privyAppSecret walletId
        authorizationPrivateKey oracle n o.entropyOut
      (rest.1, o.calls ++ rest.2)

/-- `main` (source lines 255–291): read the four required environment
values, fail if any is missing before any network interaction, then
create a wallet and run twenty export iterations. The second component
records every network call issued. -/
def mainModel (env : EnvConfig) (oracle : Oracle) (entropy : Nat) :
    Except PipelineError Unit × List NetworkCall :=
  let privyAppId := env.privyAppId.getD []
  let privyAppSecret := env.privyAppSecret.getD []
  let privyAuthorizationPublicKey := env.privyAuthorizationPublicKey.getD []
  let privyAuthorizationPrivateKey := env.privyAuthorizationPrivateKey.getD []
  if envFalsy env.privyAppId || envFalsy env.privyAppSecret ||
      envFalsy env.privyAuthorizationPublicKey ||
      envFalsy env.privyAuthorizationPrivateKey then
    (.error .configurationError, [])
  else
    let createdWallet := oracle.createWallet privyAuthorizationPublicKey
    let loop := mainLoop privyAppId privyAppSecret createdWallet.id
      privyAuthorizationPrivateKey oracle 20 entropy
    (loop.1, .createWalletCall privyAuthorizationPublicKey :: loop.2)

/-- C4: If any one of the four required configuration values is
missing, the pipeline fails with the configuration error before any
network call is attempted — the network-call log is empty. -/
theorem mainModel_configuration_error (env : EnvConfig) (oracle : Oracle)
    (entropy : Nat)
    (h : env.privyAppId = none ∨ env.privyAppSecret = none ∨
      env.privyAuthorizationPublicKey = none ∨
      env.privyAuthorizationPrivateKey = none) :
    mainModel env oracle entropy = (.error .configurationError, []) := by
  rcases h with h | h | h | h <;> simp [mainModel, h, envFalsy]

/-- A concrete oracle for witnesses. -/
def trivialOracle : Oracle :=
  { createWallet := fun _ => ⟨[]⟩
    exportEndpoint := fun _ => ⟨200, [], [], []⟩ }

/-- Witness for C4 with the application id missing. -/
theorem mainModel_configuration_error_witness :
    mainModel ⟨none, some "s".toList, some "p".toList, some "k".toList⟩
      trivialOracle 0 = (.error .configurationError, []) :=
  mainModel_configuration_error _ trivialOracle 0 (Or.inl rfl)

theorem generateAuthorizationSignature_ne_nil (input : SignatureInput)
    (key : List Char) : generateAuthorizationSignature input key ≠ [] := by
  simp [generateAuthorizationSignature]

/-- C5 amended: for every non-2xx response from the custody export
endpoint, `exportWalletPrivateKey` fails with the export-rejected
error whose message is `Failed to export wallet: ` followed by the
response body verbatim — surfaced to the caller as the call's result,
never swallowed — but the message does not include the numeric status
code. -/
theorem exportWalletPrivateKey_rejected (privyAppId privyAppSecret walletId
    authorizationPrivateKey : List Char) (oracle : Oracle) (entropy : Nat)
    (status : Nat) (body : List Char)
    (hstatus : ∀ r, (oracle.exportEndpoint r).status = status)
    (hbody : ∀ r, (oracle.exportEndpoint r).bodyText = body)
    (hnotok : responseOk status = false) :
    (exportWalletPrivateKey privyAppId privyAppSecret walletId
      authorizationPrivateKey oracle entropy).result
      = .error (.exportRejected ("Failed to export wallet: ".toList ++ body)) := by
  simp only [exportWalletPrivateKey]
  rw [if_neg (generateAuthorizationSignature_ne_nil _ _)]
  simp only [hstatus, hbody, hnotok, Bool.false_eq_true, if_false]

/-- A concrete rejecting oracle: 403 with body `Forbidden`. -/
def rejectingOracle : Oracle :=
  { createWallet := fun _ => ⟨[]⟩
    exportEndpoint := fun _ => ⟨403, "Forbidden".toList, [], []⟩ }

/-- C5 counterexample: on a 403 response with body `Forbidden`, the
thrown message is `Failed to export wallet: Forbidden` — the body is
carried verbatim, but the message nowhere contains the status code
`403`, contradicting the claim that the error carries both. -/
theorem exportWalletPrivateKey_rejected_no_status :
    (exportWalletPrivateKey "appid".toList "secret".toList "w123".toList
      "authkey".toList rejectingOracle 0).result
      = .error (.exportRejected ("Failed to export wallet: Forbidden".toList)) ∧
    containsSub "403".toList ("Failed to export wallet: Forbidden".toList)
      = false := by
  constructor
  · rfl
  · rfl

/-- Witness for the amended C5 at the concrete 403 oracle. -/
theorem exportWalletPrivateKey_rejected_witness :
    (exportWalletPrivateKey "appid".toList "secret".toList "w123".toList
      "authkey".toList rejectingOracle 0).result
      = .error (.exportRejected ("Failed to export wallet: ".toList
        ++ "Forbidden".toList)) :=
  exportWalletPrivateKey_rejected "appid".toList "secret".toList
    "w123".toList "authkey".toList rejectingOracle 0 403 "Forbidden".toList
    (fun _ => rfl) (fun _ => rfl) rfl

theorem p256ScalarOfEntropy_pos (entropy : Nat) :
    1 ≤ p256ScalarOfEntropy entropy := by
  simp [p256ScalarOfEntropy]

theorem p256ScalarOfEntropy_lt (entropy : Nat) :
    p256ScalarOfEntropy entropy < 2 ^ 256 := by
  have hP : 2 ≤ 2 ^ 256 - 1 := by norm_num
  have hx : entropy % (2 ^ 256 - 1) < 2 ^ 256 - 1 := Nat.mod_lt _ (by omega)
  unfold p256ScalarOfEntropy
  omega

theorem p256ScalarOfEntropy_succ_ne (entropy : Nat) :
    p256ScalarOfEntropy entropy ≠ p256ScalarOfEntropy (entropy + 1) := by
  unfold p256ScalarOfEntropy
  intro h
  have h' : entropy % (2 ^ 256 - 1) = (entropy + 1) % (2 ^ 256 - 1) := by omega
  set P := 2 ^ 256 - 1 with hPdef
  have hP : 2 ≤ P := by rw [hPdef]; norm_num
  have hx : entropy % P < P := Nat.mod_lt _ (by omega)
  rw [Nat.add_mod, Nat.mod_eq_of_lt (show 1 < P by omega)] at h'
  rcases Nat.lt_or_ge (entropy % P + 1) P with hc | hc
  · rw [Nat.mod_eq_of_lt hc] at h'
    omega
  · have hxe : entropy % P + 1 = P := by omega
    rw [hxe, Nat.mod_self] at h'
    omega

theorem exportSpki_inj {s₁ s₂ : Nat} (h₁ : s₁ < 2 ^ 256) (h₂ : s₂ < 2 ^ 256)
    (h : exportSpki s₁ = exportSpki s₂) : s₁ = s₂ := by
  rw [exportSpki, exportSpki] at h
  exact natToLEBytes_inj (by rw [pow_256_32]; exact h₁)
    (by rw [pow_256_32]; exact h₂) (List.append_cancel_left h)

theorem generateAuthorizationSignature_inj_pk {appId url pk₁ pk₂ key :
    List Char}
    (h : generateAuthorizationSignature ⟨appId, url, pk₁⟩ key
      = generateAuthorizationSignature ⟨appId, url, pk₂⟩ key) : pk₁ = pk₂ := by
  rw [generateAuthorizationSignature, generateAuthorizationSignature] at h
  have h1 := (List.append_inj' h rfl).1
  exact List.append_cancel_left h1

/-- C8: Every invocation of `exportWalletPrivateKey` generates its own
fresh ephemeral P-256 keypair scoped to that call: two successive
export calls for the same wallet id (the second starting from the
entropy state the first left behind) use two different ephemeral
public keys and produce two different authorization signatures. -/
theorem exportWalletPrivateKey_fresh (privyAppId privyAppSecret walletId
    authorizationPrivateKey : List Char) (oracle : Oracle) (entropy : Nat) :
    (exportWalletPrivateKey privyAppId privyAppSecret walletId
        authorizationPrivateKey oracle entropy).recipientPublicKeyBase64
      ≠ (exportWalletPrivateKey privyAppId privyAppSecret walletId
        authorizationPrivateKey oracle
        (exportWalletPrivateKey privyAppId privyAppSecret walletId
          authorizationPrivateKey oracle entropy).entropyOut).recipientPublicKeyBase64
    ∧ (exportWalletPrivateKey privyAppId privyAppSecret walletId
        authorizationPrivateKey oracle entropy).signature
      ≠ (exportWalletPrivateKey privyAppId privyAppSecret walletId
        authorizationPrivateKey oracle
        (exportWalletPrivateKey privyAppId privyAppSecret walletId
          authorizationPrivateKey oracle entropy).entropyOut).signature := by
  have hscal := p256ScalarOfEntropy_succ_ne entropy
  have hpkne : b64EncodeBytes (exportSpki (p256ScalarOfEntropy entropy))
      ≠ b64EncodeBytes (exportSpki (p256ScalarOfEntropy (entropy + 1))) := by
    intro h
    exact hscal (exportSpki_inj (p256ScalarOfEntropy_lt entropy)
      (p256ScalarOfEntropy_lt (entropy + 1))
      (b64EncodeBytes_inj (exportSpki_bytes_lt _) (exportSpki_bytes_lt _) h))
  constructor
  · exact hpkne
  · intro h
    exact hpkne (generateAuthorizationSignature_inj_pk h)

/-! ## Private-key normalization (`decodePrivateKey`,
`decodeDoubleHexPrivateKey`) -/

/-- The character class of the source regexes `[0-9a-fA-F]`. -/
def isHexChar (c : Char) : Bool :=
  ('0' ≤ c && c ≤ '9') || ('a' ≤ c && c ≤ 'f') || ('A' ≤ c && c ≤ 'F')

/-- `/^[0-9a-fA-F]{len}$/.test s`. -/
def isHexString (len : Nat) (s : List Char) : Bool :=
  s.length == len && s.all isHexChar

/-- Value of one hex digit (`none` for a non-hex character). -/
def hexCharVal (c : Char) : Option Nat :=
  if '0' ≤ c ∧ c ≤ '9' then some (c.toNat - 48)
  else if 'a' ≤ c ∧ c ≤ 'f' then some (c.toNat - 87)
  else if 'A' ≤ c ∧ c ≤ 'F' then some (c.toNat - 55)
  else none

/-- `Buffer.from(s, 'hex')`: consume hex-digit pairs, stopping at the
first invalid pair. -/
def hexToBytes : List Char → List Nat
  | c1 :: c2 :: rest =>
    match hexCharVal c1, hexCharVal c2 with
    | some hi, some lo => (hi * 16 + lo) :: hexToBytes rest
    | _, _ => []
  | _ => []

/-- The Unicode replacement character emitted for invalid UTF-8. -/
def replacementChar : Char := Char.ofNat 0xFFFD

/-- Whether a byte is a UTF-8 continuation byte. -/
def isUtf8Cont (b : Nat) : Bool := 0x80 ≤ b && b < 0xC0

/-- `Buffer.toString('utf8')`: UTF-8 decoding with replacement
characters for invalid sequences (permissive about overlong forms,
which no proof path exercises). -/
def utf8Decode : List Nat → List Char
  | [] => []
  | b :: rest =>
    if b < 0x80 then Char.ofNat b :: utf8Decode rest
    else if 0xC2 ≤ b && b < 0xE0 then
      match rest with
      | b2 :: rest2 =>
        if isUtf8Cont b2 then
          Char.ofNat ((b - 0xC0) * 64 + (b2 - 0x80)) :: utf8Decode rest2
        else replacementChar :: utf8Decode (b2 :: rest2)
      | [] => [replacementChar]
    else if 0xE0 ≤ b && b < 0xF0 then
      match rest with
      | b2 :: b3 :: rest3 =>
        if isUtf8Cont b2 && isUtf8Cont b3 then
          Char.ofNat ((b - 0xE0) * 4096 + (b2 - 0x80) * 64 + (b3 - 0x80))
            :: utf8Decode rest3
        else replacementChar :: utf8Decode (b2 :: b3 :: rest3)
      | r => replacementChar :: utf8Decode r
    else if 0xF0 ≤ b && b < 0xF5 then
      match rest with
      | b2 :: b3 :: b4 :: rest4 =>
        if isUtf8Cont b2 && isUtf8Cont b3 && isUtf8Cont b4 then
          Char.ofNat ((b - 0xF0) * 262144 + (b2 - 0x80) * 4096
            + (b3 - 0x80) * 64 + (b4 - 0x80)) :: utf8Decode rest4
        else replacementChar :: utf8Decode (b2 :: b3 :: b4 :: rest4)
      | r => replacementChar :: utf8Decode r
    else replacementChar :: utf8Decode rest
termination_by l => l.length
decreasing_by
  all_goals simp only [List.length_cons]
  all_goals omega

/-- The error message of `decodePrivateKey`. -/
def unknownFormatMsg : List Char :=
  "Could not decode private key - unknown or unsupported format.".toList

/-- `decodePrivateKey` (first source document, lines 11–44): strip a
`PRIVATE_KEY=` prefix, accept a 66-character `0x` key as is, prefix a
64-character key with `0x`, extract the first 64 characters after
`0x` from any longer `0x` key, and throw otherwise. The branch logging
and rethrow (lines 40–43) leave the thrown error unchanged. -/
def decodePrivateKey (encodedKey : List Char) : Except (List Char) (List Char) :=
  let cleanKey :=
    if ("PRIVATE_KEY=".toList).isPrefixOf encodedKey then encodedKey.drop 12
    else encodedKey
  if ("0x".toList).isPrefixOf cleanKey ∧ cleanKey.length = 66 then .ok cleanKey
  else if ¬("0x".toList).isPrefixOf cleanKey ∧ cleanKey.length = 64 then
    .ok ('0' :: 'x' :: cleanKey)
  else if ("0x".toList).isPrefixOf cleanKey ∧ cleanKey.length > 66 then
    .ok ('0' :: 'x' :: (cleanKey.drop 2).take 64)
  else .error unknownFormatMsg

/-- The error message of `decodeDoubleHexPrivateKey`. -/
def invalidKeyFormatMsg : List Char :=
  "Invalid private key format. Expected 64 or 128 hex characters.".toList

/-- `decodeDoubleHexPrivateKey` (`src/unnamed/part_000`, lines 8–22):
strip a `0x` prefix, accept 64 hex characters with a `0x` prefix
added, decode 128 hex characters once and accept the result when it is
again 64 hex characters, and throw in every other case. -/
def decodeDoubleHexPrivateKey (encodedKey : List Char) :
    Except (List Char) (List Char) :=
  let cleanKey :=
    if ("0x".toList).isPrefixOf encodedKey then encodedKey.drop 2
    else encodedKey
  if isHexString 64 cleanKey then .ok ('0' :: 'x' :: cleanKey)
  else if isHexString 128 cleanKey then
    let decoded := utf8Decode (hexToBytes cleanKey)
    if isHexString 64 decoded then .ok ('0' :: 'x' :: decoded)
    else .error invalidKeyFormatMsg
  else .error invalidKeyFormatMsg

/-- The recognized input shapes named by C9: bare 64-character hex, a
66-character `0x`-prefixed hex key, and 128-character double-encoded
hex whose decoding is 64-character hex. -/
def recognizedKeyShape (s : List Char) : Bool :=
  isHexString 64 s
  || (("0x".toList).isPrefixOf s && isHexString 64 (s.drop 2))
  || (isHexString 128 s && isHexString 64 (utf8Decode (hexToBytes s)))

/-- C9 counterexample: the input `0x` followed by 68 `1`s is none of the
recognized shapes (64 hex, 66-character `0x` hex, 128-character
double-encoded hex), yet `decodePrivateKey` does not fail: it
best-effort extracts the first 64 characters after the prefix. -/
theorem decodePrivateKey_guesses :
    recognizedKeyShape ('0' :: 'x' :: List.replicate 68 '1') = false ∧
    decodePrivateKey ('0' :: 'x' :: List.replicate 68 '1')
      = .ok ('0' :: 'x' :: List.replicate 64 '1') := by
  constructor
  · rfl
  · rfl

theorem zeroX_isPrefixOf (t : List Char) :
    ("0x".toList).isPrefixOf ('0' :: 'x' :: t) = true := by
  simp [List.isPrefixOf]

/-- A `0x`-prefixed 64-hex-character string is a fixed point of
`decodeDoubleHexPrivateKey`. -/
theorem decodeDoubleHexPrivateKey_ok_of_hex64 {t : List Char}
    (ht : isHexString 64 t = true) :
    decodeDoubleHexPrivateKey ('0' :: 'x' :: t) = .ok ('0' :: 'x' :: t) := by
  have hdrop : ('0' :: 'x' :: t).drop 2 = t := rfl
  simp only [decodeDoubleHexPrivateKey, zeroX_isPrefixOf, if_true, hdrop]
  rw [if_pos ht]

/-- C9 amended: `decodeDoubleHexPrivateKey` never guesses — whenever
the `0x`-stripped input is neither 64 hex characters nor 128 hex
characters whose decoded form is 64 hex characters, it fails with the
hard format error instead of attempting recovery. (`decodePrivateKey`,
by contrast, extracts a substring of longer `0x`-prefixed inputs: see
the counterexample.) -/
theorem decodeDoubleHexPrivateKey_never_guesses (encodedKey : List Char)
    (h64 : isHexString 64 (if ("0x".toList).isPrefixOf encodedKey then
      encodedKey.drop 2 else encodedKey) = false)
    (h128 : (isHexString 128 (if ("0x".toList).isPrefixOf encodedKey then
        encodedKey.drop 2 else encodedKey)
      && isHexString 64 (utf8Decode (hexToBytes
        (if ("0x".toList).isPrefixOf encodedKey then encodedKey.drop 2
          else encodedKey)))) = false) :
    decodeDoubleHexPrivateKey encodedKey = .error invalidKeyFormatMsg := by
  simp only [decodeDoubleHexPrivateKey, h64, Bool.false_eq_true, if_false]
  by_cases h : isHexString 128 (if ("0x".toList).isPrefixOf encodedKey then
      encodedKey.drop 2 else encodedKey) = true
  · rw [h, Bool.true_and] at h128
    simp only [h, if_true, h128, Bool.false_eq_true, if_false]
  · simp only [if_neg h]

/-- Witness for the amended C9 at a concrete malformed input. -/
theorem decodeDoubleHexPrivateKey_never_guesses_witness :
    decodeDoubleHexPrivateKey "zz".toList = .error invalidKeyFormatMsg :=
  decodeDoubleHexPrivateKey_never_guesses "zz".toList (by decide) (by decide)

/-- C10: `decodeDoubleHexPrivateKey` is idempotent on its successes:
every successful result is `0x` followed by exactly 64 hexadecimal
digits, and applying the function to that result returns it
unchanged. -/
theorem decodeDoubleHexPrivateKey_idempotent (s r : List Char)
    (h : decodeDoubleHexPrivateKey s = .ok r) :
    (∃ t, r = '0' :: 'x' :: t ∧ isHexString 64 t = true) ∧
    decodeDoubleHexPrivateKey r = .ok r := by
  rw [decodeDoubleHexPrivateKey] at h
  generalize (if ("0x".toList).isPrefixOf s = true then s.drop 2 else s)
    = clean at h
  by_cases h1 : isHexString 64 clean = true
  · rw [if_pos h1] at h
    injection h with hr
    subst hr
    exact ⟨⟨clean, rfl, h1⟩, decodeDoubleHexPrivateKey_ok_of_hex64 h1⟩
  · rw [if_neg h1] at h
    by_cases h2 : isHexString 128 clean = true
    · rw [if_pos h2] at h
      replace h : (if isHexString 64 (utf8Decode (hexToBytes clean)) = true
          then Except.ok ('0' :: 'x' :: utf8Decode (hexToBytes clean))
          else (Except.error invalidKeyFormatMsg :
            Except (List Char) (List Char))) = Except.ok r := h
      by_cases h3 : isHexString 64 (utf8Decode (hexToBytes clean)) = true
      · rw [if_pos h3] at h
        injection h with hr
        subst hr
        exact ⟨⟨utf8Decode (hexToBytes clean), rfl, h3⟩,
          decodeDoubleHexPrivateKey_ok_of_hex64 h3⟩
      · rw [if_neg h3] at h
        simp at h
    · rw [if_neg h2] at h
      simp at h

/-- Witness for C10 at a concrete successful input. -/
theorem decodeDoubleHexPrivateKey_idempotent_witness :
    (∃ t, ('0' :: 'x' :: List.replicate 64 'a') = '0' :: 'x' :: t ∧
      isHexString 64 t = true) ∧
    decodeDoubleHexPrivateKey ('0' :: 'x' :: List.replicate 64 'a')
      = .ok ('0' :: 'x' :: List.replicate 64 'a') :=
  decodeDoubleHexPrivateKey_idempotent (List.replicate 64 'a')
    ('0' :: 'x' :: List.replicate 64 'a') (by rfl)

end PrivyService
